import Mathlib

/-!
Shallow embedding of the vctx VS Code context extractor (src/index.js) and
verification of the specification claims about it.

Conventions used throughout:
* JavaScript values that may be `null`/`undefined`, and JSON blobs whose
  parse may fail, are modelled with `Option`; a `try/catch` that degrades to
  an empty/absent result is modelled by the `none` branch of the input.
* JS strings are Lean `String`s (`String.data : List Char`); `split('\n')`,
  `substring`, `trim`, `startsWith` are modelled by executable functions
  defined below with JS clamping semantics.
* External effects (the sqlite store read, `lsof` process inspection, the
  filesystem) are explicit parameters: a store read that failed or a file
  that does not exist is `none`.
* `chalk` styling functions are the identity (color disabled, as when the
  output is piped), so rendered text carries no escape codes.
-/

namespace Vctx

/-! ## JS string primitives -/

/-- JS `String.prototype.substring(a, b)`: clamps both indices to the string
length and swaps them when `a > b`. -/
def jsSubstring (s : String) (a b : Nat) : String :=
  let n := s.data.length
  let a1 := min a n
  let b1 := min b n
  (((s.data.drop (min a1 b1)).take (max a1 b1 - min a1 b1))).asString

/-- JS `String.prototype.substring(a)` (to the end of the string). -/
def jsSubstringFrom (s : String) (a : Nat) : String :=
  (s.data.drop (min a s.data.length)).asString

/-- JS `String.prototype.startsWith(p)` as a plain character-wise check. -/
def listIsInit : List Char → List Char → Bool
  | [], _ => true
  | _ :: _, [] => false
  | a :: as, b :: bs => a == b && listIsInit as bs

/-- JS `s.startsWith(p)`. -/
def jsStartsWith (s p : String) : Bool :=
  listIsInit p.data s.data

/-- JS `String.prototype.split(sep)` for a one-character separator, on the
character list. -/
def splitOnChar (sep : Char) : List Char → List (List Char)
  | [] => [[]]
  | c :: cs =>
    let r := splitOnChar sep cs
    if c = sep then [] :: r
    else
      match r with
      | [] => [[c]]
      | l :: ls => (c :: l) :: ls

/-- JS `content.split('\n')`. -/
def splitLines (s : String) : List String :=
  (splitOnChar '\n' s.data).map List.asString

/-- Removal of the first occurrence of `pat` from a character list. -/
def removeFirstOcc (pat : List Char) : List Char → List Char
  | [] => []
  | c :: cs =>
    if listIsInit pat (c :: cs) then List.drop pat.length (c :: cs)
    else c :: removeFirstOcc pat cs

/-- JS `s.replace(pat, '')`: removes the first occurrence of `pat` only. -/
def stripFirst (s pat : String) : String :=
  (removeFirstOcc pat.data s.data).asString

/-- JS `String.prototype.trim()` (over the ASCII whitespace the inputs
contain). -/
def jsTrim (s : String) : String :=
  ((((s.data.dropWhile Char.isWhitespace).reverse).dropWhile
      Char.isWhitespace).reverse).asString

/-- JS `Array.prototype.join(sep)` / the line breaks between slice parts. -/
def joinSep (sep : String) : List String → String
  | [] => ""
  | [x] => x
  | x :: y :: rest => x ++ sep ++ joinSep sep (y :: rest)

/-- Concatenation of a list of strings (JS `+=` accumulation in a loop). -/
def concatAll : List String → String
  | [] => ""
  | x :: xs => x ++ concatAll xs

/-! ## Data model: editor layout (memento/workbench.parts.editor)

The serialized grid is a tree of groups.  A leaf group carries an ordered
list of tab descriptors (`editors`), a `sticky` number, a group `id` and a
most-recently-used index list `mru`.  A tab descriptor has a type-`id`
string and a `value` string holding nested JSON; `value = none` stands for
a missing/falsy value or a nested JSON whose parse throws (both are skipped
by the source's try/catch). -/

/-- Parsed nested editor descriptor JSON.  For a file tab the source reads
`resourceJSON.fsPath`; for a terminal tab it reads `pid`, `title`, `cwd`
and `id` (here `tid`). -/
structure EditorData where
  fsPath : Option String
  pid : Option Nat
  title : Option String
  cwd : Option String
  tid : Option String
  deriving DecidableEq, Repr

/-- One entry of a leaf group's `editors` array. -/
structure EditorEntry where
  id : String
  value : Option EditorData
  deriving DecidableEq, Repr

/-- Payload of a leaf grid node (`group.data` in the source). -/
structure LeafData where
  editors : Option (List EditorEntry)
  sticky : Option Nat
  id : String
  mru : Option (List Nat)
  deriving DecidableEq, Repr

/-- A node of the serialized editor grid.  `leaf none` is a leaf whose
`data` is missing; a branch whose `data` is missing is modelled as
`branch []` (the source skips it, which produces the same tabs, none);
`other` is an unrecognized `type` tag. -/
inductive GridNode where
  | leaf : Option LeafData → GridNode
  | branch : List GridNode → GridNode
  | other : GridNode
  deriving Repr

/-- The document stored under `memento/workbench.parts.editor`:
`editorpart.state.activeGroup` and `editorpart.state.serializedGrid.root.data`
(the latter defaulted to `[]` when missing, as in the source). -/
structure EditorStateDoc where
  activeGroup : Option String
  gridData : List GridNode
  deriving Repr

/-- Tab kinds produced by the parser. -/
inductive TabType where
  | file
  | terminal
  deriving DecidableEq, Repr

/-- Terminal tab metadata recorded by the source. -/
structure TermMeta where
  pid : Option Nat
  title : Option String
  cwd : String
  tid : Option String
  deriving DecidableEq, Repr

/-- A flattened open tab, as pushed onto `files` by `getOpenFiles`.
`selections` is filled in later by `getRawContext` (defaulted to `[]`). -/
structure Tab where
  path : String
  type : TabType
  pinned : Bool
  groupId : String
  index : Nat
  selections : List String := []
  metadata : Option TermMeta := none
  deriving DecidableEq, Repr

/-! ## Editor layout parser (`VSCodeInspector.getOpenFiles`) -/

/-- The pinned flag: `sticky !== null && sticky !== undefined && index <= sticky`. -/
def pinnedFlag (sticky : Option Nat) (index : Nat) : Bool :=
  match sticky with
  | none => false
  | some s => decide (index ≤ s)

/-- Display path of a terminal tab, including the best-effort live working
directory obtained from the process inspector `procCwd` (the `lsof` call;
`none` covers a failed or timed-out lookup and a vanished process). -/
def termPath (procCwd : Nat → Option String) (d : EditorData) : String :=
  let realCwd :=
    match d.pid with
    | some pid => if pid = 0 then "" else (procCwd pid).getD ""
    | none => ""
  let cwdDisplay := if realCwd = "" then "" else " @ " ++ realCwd
  let titleStr :=
    match d.title with
    | some t => if t = "" then "Unknown" else t
    | none => "Unknown"
  let pidStr :=
    match d.pid with
    | some pid => if pid = 0 then "N/A" else toString pid
    | none => "N/A"
  "Terminal: " ++ titleStr ++ " (PID: " ++ pidStr ++ ")" ++ cwdDisplay

/-- Terminal tab metadata (`realCwd || terminalData.cwd || ''`). -/
def termMeta (procCwd : Nat → Option String) (d : EditorData) : TermMeta :=
  let realCwd :=
    match d.pid with
    | some pid => if pid = 0 then "" else (procCwd pid).getD ""
    | none => ""
  { pid := d.pid
    title := d.title
    cwd := if realCwd = "" then (d.cwd.getD "") else realCwd
    tid := d.tid }

/-- Processing of one `editors` entry at order index `i` inside a group:
yields a `Tab` for a file-editor input with a present, non-empty `fsPath`,
always yields a terminal `Tab` for a terminal input, and skips entries with
a missing/unparseable `value` or an unrecognized `id`. -/
def parseEditor (procCwd : Nat → Option String) (sticky : Option Nat)
    (gid : String) (i : Nat) (e : EditorEntry) : Option Tab :=
  match e.value with
  | none => none
  | some d =>
    if e.id = "workbench.editors.files.fileEditorInput" then
      match d.fsPath with
      | some p =>
        if p = "" then none
        else some { path := p, type := TabType.file,
                    pinned := pinnedFlag sticky i, groupId := gid, index := i }
      | none => none
    else if e.id = "workbench.editors.terminal" then
      some { path := termPath procCwd d, type := TabType.terminal,
             pinned := pinnedFlag sticky i, groupId := gid, index := i,
             metadata := some (termMeta procCwd d) }
    else none

/-- The `editors.forEach((editor, index) => ...)` loop: indices count every
entry, including the skipped ones. -/
def parseEditorsLoop (procCwd : Nat → Option String) (sticky : Option Nat)
    (gid : String) : Nat → List EditorEntry → List Tab
  | _, [] => []
  | i, e :: es =>
    match parseEditor procCwd sticky gid i e with
    | some t => t :: parseEditorsLoop procCwd sticky gid (i + 1) es
    | none => parseEditorsLoop procCwd sticky gid (i + 1) es

/-- Tabs contributed by one leaf group (skipped entirely when its `editors`
array is missing). -/
def processLeafEditors (procCwd : Nat → Option String) (ld : LeafData) : List Tab :=
  match ld.editors with
  | none => []
  | some es => parseEditorsLoop procCwd ld.sticky ld.id 0 es

mutual

/-- Depth-first flattening of one grid node (`processGridData`'s body). -/
def processGridNode (procCwd : Nat → Option String) : GridNode → List Tab
  | GridNode.leaf none => []
  | GridNode.leaf (some ld) => processLeafEditors procCwd ld
  | GridNode.branch cs => processGridData procCwd cs
  | GridNode.other => []

/-- Depth-first flattening of a list of grid nodes (`processGridData`). -/
def processGridData (procCwd : Nat → Option String) : List GridNode → List Tab
  | [] => []
  | g :: rest => processGridNode procCwd g ++ processGridData procCwd rest

end

/-- `VSCodeInspector.getOpenFiles`: `doc` is the parsed layout document;
`none` stands for a missing store row, an unreadable store or a document
whose JSON parse throws — all of which make the source return `[]`. -/
def getOpenFiles (procCwd : Nat → Option String)
    (doc : Option EditorStateDoc) : List Tab :=
  match doc with
  | none => []
  | some st => processGridData procCwd st.gridData

/-! ## Active file resolution (`VSCodeInspector.getActiveFile`) -/

/-- Body of the matching-group branch: `mru[0]` is the active index; the
path is returned only for a file-editor input whose nested JSON parses and
carries a non-empty `fsPath` (`editorData.resourceJSON?.fsPath || null`). -/
def activeFromLeaf (ld : LeafData) : Option String :=
  match (ld.mru.getD []).head? with
  | none => none
  | some ai =>
    match (ld.editors.getD []).get? ai with
    | none => none
    | some e =>
      if e.id = "workbench.editors.files.fileEditorInput" then
        match e.value with
        | some d =>
          match d.fsPath with
          | some p => if p = "" then none else some p
          | none => none
        | none => none
      else none

/-- The `for (const group of gridData)` loop of `getActiveFile`: it visits
only the top-level nodes (no recursion into branches), and `break`s at the
first leaf whose `data.id` equals the active group id. -/
def findActiveInList (ag : Option String) : List GridNode → Option String
  | [] => none
  | GridNode.leaf (some ld) :: rest =>
    if some ld.id = ag then activeFromLeaf ld else findActiveInList ag rest
  | _ :: rest => findActiveInList ag rest

/-- `VSCodeInspector.getActiveFile` (`none` input: missing row / parse failure). -/
def getActiveFile (doc : Option EditorStateDoc) : Option String :=
  match doc with
  | none => none
  | some st => findActiveInList st.activeGroup st.gridData

/-! ## Selection extraction (`VSCodeInspector.getSelections`)

The document under `memento/workbench.editors.files.textFileEditor` maps a
file URI to named editor view states; each view state may carry a
`cursorState` array whose first element holds `inSelectionMode`,
`selectionStart` (the anchor) and `position` (the cursor). -/

/-- A 1-based line/column position. -/
structure Pos where
  lineNumber : Nat
  column : Nat
  deriving DecidableEq, Repr

/-- First element of a view state's `cursorState` array.  `inSelectionMode`
is `some b` when the property is literally the boolean `b` and `none` when
absent (the source's `=== true` accepts only the literal `true`). -/
structure CursorState where
  inSelectionMode : Option Bool
  selectionStart : Option Pos
  position : Option Pos
  deriving DecidableEq, Repr

/-- One named editor view state (`cursorState` missing is modelled as `[]`;
the source only reads element `0`, which is then `undefined` either way). -/
structure EditorViewState where
  cursorState : List CursorState
  deriving DecidableEq, Repr

/-- The parsed selection-state document: `textEditorViewState` is a list of
`[filePath, states]` pairs, `states` being the object's key/value entries. -/
structure ViewStateDoc where
  textEditorViewState : List (String × List (String × EditorViewState))
  deriving Repr

/-- The source's backward test: `(start.lineNumber > end.lineNumber) ||
(start.lineNumber === end.lineNumber && start.column > end.column)`. -/
def isBackwardSel (s e : Pos) : Bool :=
  decide (s.lineNumber > e.lineNumber) ||
    (decide (s.lineNumber = e.lineNumber) && decide (s.column > e.column))

/-- Direction normalization: `actualStart`/`actualEnd` of the source. -/
def normPair (s e : Pos) : Pos × Pos :=
  if isBackwardSel s e then (e, s) else (s, e)

/-- The emitted range string: single-line `L{l}:C{c1}-{c2}`, otherwise
`L{l1}:C{c1}-L{l2}:C{c2}`. -/
def emitRange (s e : Pos) : String :=
  let a := (normPair s e).1
  let b := (normPair s e).2
  if a.lineNumber = b.lineNumber then
    "L" ++ toString a.lineNumber ++ ":C" ++ toString a.column ++ "-" ++
      toString b.column
  else
    "L" ++ toString a.lineNumber ++ ":C" ++ toString a.column ++ "-L" ++
      toString b.lineNumber ++ ":C" ++ toString b.column

/-- Range contributed by one view state: requires `inSelectionMode === true`,
both positions present, and anchor ≠ position in line or column. -/
def stateRange (st : EditorViewState) : Option String :=
  match st.cursorState.head? with
  | none => none
  | some cs =>
    if cs.inSelectionMode = some true then
      match cs.selectionStart, cs.position with
      | some s, some e =>
        if s.lineNumber ≠ e.lineNumber ∨ s.column ≠ e.column then
          some (emitRange s e)
        else none
      | some _, none => none
      | none, _ => none
    else none

/-- One file's selection record. `content` is attached later by
`getRawContext` when content extraction is requested. -/
structure SelContent where
  range : String
  content : String
  lineCount : Nat
  deriving DecidableEq, Repr

/-- A per-file selection entry of the output. -/
structure Selection where
  file : String
  ranges : List String
  content : Option (List SelContent) := none
  deriving DecidableEq, Repr

/-- `VSCodeInspector.getSelections` (`none` input: missing row / parse
failure → `[]`). Files whose states contribute no range are skipped. -/
def getSelections (doc : Option ViewStateDoc) : List Selection :=
  match doc with
  | none => []
  | some vs =>
    vs.textEditorViewState.filterMap (fun pr =>
      let ranges := pr.2.filterMap (fun kv => stateRange kv.2)
      if ranges.isEmpty then none
      else some { file := stripFirst pr.1 "file://", ranges := ranges })

/-! ## Content slicing (`VSCodeInspector.extractSelectedContent`)

A range is handled after its regex parse `L(\d+):C(\d+)-(?:L(\d+):C)?(\d+)`,
as the quadruple of captured 1-based numbers (for the single-line form the
end line equals the start line).  The line/column numbers written by the
editor are ≥ 1, matching the values `getSelections` emits; the regex itself
and the degenerate `L0`/`C0` inputs (which JS would turn into negative
indices) are outside every claim and are not modelled. -/

/-- A parsed range: 1-based start/end line and column. -/
structure RangeQ where
  startLine : Nat
  startCol : Nat
  endLine : Nat
  endCol : Nat
  deriving DecidableEq, Repr

/-- One result entry of `extractSelectedContent`. -/
structure ExtractItem where
  range : RangeQ
  content : String
  lineCount : Nat
  deriving DecidableEq, Repr

/-- Contribution of loop index `i` in the multi-line branch.  `lines[i]`
being falsy (an empty line, or an out-of-range index giving `undefined`)
hits the `continue`, contributing nothing. -/
def sliceContrib (lines : List String) (sl0 sc0 el0 ec0 i : Nat) : String :=
  let li := lines.getD i ""
  if li = "" then ""
  else if i = sl0 then jsSubstringFrom li sc0 ++ "\n"
  else if i = el0 then jsSubstring li 0 (ec0 + 1)
  else li ++ "\n"

/-- The `for (let i = min; i <= max; i++)` accumulation. -/
def sliceLoop (lines : List String) (sl0 sc0 el0 ec0 : Nat) : List Nat → String
  | [] => ""
  | i :: rest => sliceContrib lines sl0 sc0 el0 ec0 i ++
      sliceLoop lines sl0 sc0 el0 ec0 rest

/-- Text selected by one range (0-based indices are the parsed numbers
minus one, as in the source). -/
def sliceOneRange (lines : List String) (r : RangeQ) : String :=
  let sl0 := r.startLine - 1
  let sc0 := r.startCol - 1
  let el0 := r.endLine - 1
  let ec0 := r.endCol - 1
  if sl0 = el0 then
    let li := lines.getD sl0 ""
    if li = "" then "" else jsSubstring li sc0 (ec0 + 1)
  else
    sliceLoop lines sl0 sc0 el0 ec0
      (List.range' (min sl0 el0) (max sl0 el0 + 1 - min sl0 el0))

/-- `VSCodeInspector.extractSelectedContent`: `content?` is the file's text
(`none` when the file does not exist or reading throws, making the source
return `null`).  A range whose selected text is whitespace-only is dropped. -/
def extractSelectedContent (content? : Option String)
    (ranges : List RangeQ) : Option (List ExtractItem) :=
  match content? with
  | none => none
  | some c =>
    let lines := splitLines c
    some (ranges.filterMap (fun r =>
      let txt := sliceOneRange lines r
      if jsTrim txt = "" then none
      else some { range := r, content := txt,
                  lineCount := max (r.endLine - 1) (r.startLine - 1) -
                    min (r.endLine - 1) (r.startLine - 1) + 1 }))

/-! ## Spec-side slice descriptions (for refinement comparison) -/

/-- Tail of the start line from the 1-based start column (spec wording). -/
def specTailFrom (s : String) (sc : Nat) : String :=
  (s.data.drop (sc - 1)).asString

/-- Head of the end line up to and including the 1-based end column. -/
def specHeadTo (s : String) (ec : Nat) : String :=
  (s.data.take ec).asString

/-- Single-line column substring, inclusive of the end column. -/
def specColumnSub (s : String) (sc ec : Nat) : String :=
  ((s.data.drop (sc - 1)).take (ec + 1 - sc)).asString

/-- The interior lines of a multi-line range (those strictly between the
start and end lines). -/
def specInterior (lines : List String) (r : RangeQ) : List String :=
  (lines.drop r.startLine).take (r.endLine - 1 - r.startLine)

/-- The substring described by the spec for a range: the column substring
for a single-line range; otherwise the tail of the start line, all full
interior lines (including empty ones) and the head of the end line, joined
by line breaks.  This definition follows the specification's words and is
compared against `sliceOneRange`, the source's computation. -/
def specSliceRange (lines : List String) (r : RangeQ) : String :=
  if r.startLine = r.endLine then
    specColumnSub (lines.getD (r.startLine - 1) "") r.startCol r.endCol
  else
    joinSep "\n"
      ([specTailFrom (lines.getD (r.startLine - 1) "") r.startCol] ++
        specInterior lines r ++
        [specHeadTo (lines.getD (r.endLine - 1) "") r.endCol])

/-- Amended description: as `specSliceRange`, except that empty interior
lines are omitted entirely (their line break included), matching the
source's falsy-line `continue`. -/
def amendedSliceRange (lines : List String) (r : RangeQ) : String :=
  if r.startLine = r.endLine then
    specColumnSub (lines.getD (r.startLine - 1) "") r.startCol r.endCol
  else
    joinSep "\n"
      ([specTailFrom (lines.getD (r.startLine - 1) "") r.startCol] ++
        (specInterior lines r).filter (fun l => l ≠ "") ++
        [specHeadTo (lines.getD (r.endLine - 1) "") r.endCol])

/-- A range that lies within the bounds of the given file lines: 1-based,
start before end, columns inside their lines (the end column inclusive). -/
def ValidRange (lines : List String) (r : RangeQ) : Prop :=
  1 ≤ r.startLine ∧ r.startLine ≤ r.endLine ∧ r.endLine ≤ lines.length ∧
  1 ≤ r.startCol ∧
  r.startCol ≤ (lines.getD (r.startLine - 1) "").data.length ∧
  1 ≤ r.endCol ∧
  r.endCol ≤ (lines.getD (r.endLine - 1) "").data.length ∧
  (r.startLine = r.endLine → r.startCol ≤ r.endCol)

instance (lines : List String) (r : RangeQ) : Decidable (ValidRange lines r) := by
  unfold ValidRange
  infer_instance

/-! ## Workspace locator (`VSCodeInspector.findWorkspaceByFile`) -/

/-- A discovered workspace record (the state-store path is irrelevant to
the claims and omitted; `folder` is the mapped folder path). -/
structure Workspace where
  id : String
  folder : String
  deriving DecidableEq, Repr

/-- `findWorkspaceByFile`: `resolve` stands for `path.resolve` (it depends
on the process working directory, so it is a parameter); the first
workspace whose folder is a plain string prefix of the resolved path wins. -/
def findWorkspaceByFile (resolve : String → String)
    (workspaces : List Workspace) (filePath : String) : Option Workspace :=
  workspaces.find? (fun ws => jsStartsWith (resolve filePath) ws.folder)

/-- The workspace-lookup step of `getRawContext`: a missing workspace
throws `No workspace found for file: ...`. -/
def getRawContextWorkspace (resolve : String → String)
    (workspaces : List Workspace) (filePath : String) : Except String Workspace :=
  match findWorkspaceByFile resolve workspaces filePath with
  | some ws => Except.ok ws
  | none => Except.error ("No workspace found for file: " ++ filePath)

/-- The CLI command handlers catch the thrown error, print it and call
`process.exit(1)`; success paths end with exit code 0. -/
def cliExitCode {α : Type} (r : Except String α) : Nat :=
  match r with
  | Except.ok _ => 0
  | Except.error _ => 1

/-! ## Output formatter (`LLMFormatter`)

The formatter receives the Context snapshot assembled by `getRawContext`
plus the option bundle.  It re-reads files from disk for content inclusion,
so the filesystem is an explicit parameter `fsys : String → Option String`
(`none`: the file does not exist). -/

/-- The workspace header info of the Context snapshot. -/
structure WorkspaceInfo where
  id : String
  folder : String
  deriving DecidableEq, Repr

/-- The Context snapshot returned by `getRawContext` and consumed by the
formatter. -/
structure RawContext where
  workspace : WorkspaceInfo
  openFiles : List Tab
  pinnedFiles : List Tab
  selections : List Selection
  activeFile : Option String := none
  deriving Repr

/-- Formatter options.  `smartMode` is `Option Bool` because the source
tests `options.smartMode !== false` (absent defaults to smart). -/
structure FmtOptions where
  includeTerminals : Bool := false
  includeContent : Bool := false
  includePinnedContent : Bool := false
  legacyFormat : Bool := false
  smartMode : Option Bool := none
  deriving DecidableEq, Repr

/-- `LLMFormatter.getFileLanguage`: extension after the last dot, mapped to
a fence language, defaulting to `text`. -/
def getFileLanguage (filePath : String) : String :=
  let ext :=
    ((((splitOnChar '.' filePath.data).getLast?).getD []).map Char.toLower).asString
  (([("js", "javascript"), ("jsx", "javascript"), ("ts", "typescript"),
     ("tsx", "typescript"), ("py", "python"), ("rb", "ruby"), ("go", "go"),
     ("rs", "rust"), ("java", "java"), ("cpp", "cpp"), ("c", "c"),
     ("cs", "csharp"), ("php", "php"), ("sh", "bash"), ("yml", "yaml"),
     ("yaml", "yaml"), ("json", "json"), ("xml", "xml"), ("html", "html"),
     ("css", "css"), ("scss", "scss"), ("md", "markdown")].lookup ext)).getD
    "text"

/-- A fenced code block with each line indented by `pad` (the
`content.split('\n').forEach` loop of `fileList` and `selections`). -/
def fencedBlock (pad lang content : String) : String :=
  pad ++ "```" ++ lang ++ "\n" ++
    concatAll ((splitLines content).map (fun l => pad ++ l ++ "\n")) ++
    pad ++ "```\n"

/-- The status tags of one `fileList` entry, in the order the source pushes
them. -/
def fmtEntryStatus (file : Tab) : List String :=
  (if file.pinned then ["[PINNED]"] else []) ++
    (if file.type = TabType.terminal then ["[TERMINAL]"] else []) ++
    (if file.selections.isEmpty then []
     else ["[SELECTED:" ++ joinSep "," file.selections ++ "]"])

/-- The numbered line of one `fileList` entry. -/
def fmtEntryLine (index : Nat) (file : Tab) : String :=
  "  " ++ toString (index + 1) ++ ". " ++ file.path ++
    (if (fmtEntryStatus file).isEmpty then ""
     else " " ++ joinSep " " (fmtEntryStatus file)) ++ "\n"

/-- The optional content block of one `fileList` entry (included when
requested, or always for a pinned file under `includePinnedContent`, and
only when the file exists on disk). -/
def fmtEntryContent (fsys : String → Option String) (opts : FmtOptions)
    (file : Tab) : String :=
  if (opts.includeContent || (opts.includePinnedContent && file.pinned)) &&
      decide (file.type = TabType.file) then
    match fsys file.path with
    | some c => fencedBlock "     " (getFileLanguage file.path) c
    | none => ""
  else ""

/-- One `fileList` entry: the numbered line with its status tags, followed
by the optional content block. -/
def fmtFileEntry (fsys : String → Option String) (opts : FmtOptions)
    (index : Nat) (file : Tab) : String :=
  fmtEntryLine index file ++ fmtEntryContent fsys opts file

/-- The `files.forEach((file, index) => ...)` loop of `fileList`. -/
def fmtFileEntriesLoop (fsys : String → Option String) (opts : FmtOptions) :
    Nat → List Tab → String
  | _, [] => ""
  | i, f :: fs => fmtFileEntry fsys opts i f ++ fmtFileEntriesLoop fsys opts (i + 1) fs

/-- `LLMFormatter.fileList`. -/
def fmtFileList (fsys : String → Option String) (opts : FmtOptions)
    (files : List Tab) (title : String) : String :=
  if files.isEmpty then title ++ ": none\n"
  else title ++ ":\n" ++ fmtFileEntriesLoop fsys opts 0 files

/-- Legacy format, one range line plus its optional fenced content block
(matched back by range string equality). -/
def fmtLegacyRange (sel : Selection) (i : Nat) (range : String) : String :=
  "     " ++ toString (i + 1) ++ ". " ++ range ++ "\n" ++
    (match sel.content with
     | some citems =>
       match citems.find? (fun c => c.range == range) with
       | some ci => fencedBlock "        " (getFileLanguage sel.file) ci.content
       | none => ""
     | none => "")

/-- The `sel.ranges.forEach((range, i) => ...)` loop of the legacy format. -/
def fmtLegacyRangesLoop (sel : Selection) : Nat → List String → String
  | _, [] => ""
  | i, r :: rs => fmtLegacyRange sel i r ++ fmtLegacyRangesLoop sel (i + 1) rs

/-- One legacy-format selection entry. -/
def fmtLegacySel (index : Nat) (sel : Selection) : String :=
  "  " ++ toString (index + 1) ++ ". " ++ sel.file ++ "\n" ++
    fmtLegacyRangesLoop sel 0 sel.ranges

/-- One IDE-style selection entry: header sentence, then either the actual
selected content lines or the range strings as a fallback, then a blank
separator between files (not after the last). -/
def fmtIdeSel (total index : Nat) (sel : Selection) : String :=
  "The user selected the following lines from " ++ sel.file ++ ":" ++ "\n" ++
    (match sel.content with
     | some citems =>
       concatAll (citems.map (fun ci =>
         concatAll ((splitLines ci.content).map (fun l => l ++ "\n"))))
     | none => concatAll (sel.ranges.map (fun r => r ++ "\n"))) ++
    (if index < total - 1 then "\n" else "")

/-- The `selections.forEach((sel, index) => ...)` loop. -/
def fmtSelsLoop (legacy : Bool) (total : Nat) : Nat → List Selection → String
  | _, [] => ""
  | i, s :: ss =>
    (if legacy then fmtLegacySel i s else fmtIdeSel total i s) ++
      fmtSelsLoop legacy total (i + 1) ss

/-- `LLMFormatter.selections`. -/
def fmtSelections (selections : List Selection) (opts : FmtOptions) : String :=
  if selections.isEmpty then "SELECTIONS: none\n"
  else
    let body := fmtSelsLoop opts.legacyFormat selections.length 0 selections
    if opts.legacyFormat then "SELECTIONS:\n" ++ body else body

/-- `LLMFormatter.workspace`. -/
def fmtWorkspace (w : WorkspaceInfo) : String :=
  "WORKSPACE: " ++ w.folder ++ "\n" ++ "WORKSPACE_ID: " ++ w.id ++ "\n"

/-- Smart mode is on unless `smartMode` is literally `false`
(`options.smartMode !== false`). -/
def smartModeOn (opts : FmtOptions) : Bool :=
  match opts.smartMode with
  | some false => false
  | _ => true

/-- Open files after the terminal filter of `raw`. -/
def rawOpenList (data : RawContext) (opts : FmtOptions) : List Tab :=
  if opts.includeTerminals then data.openFiles
  else data.openFiles.filter (fun f => decide (f.type ≠ TabType.terminal))

/-- Pinned files after the terminal filter of `raw`. -/
def rawPinnedList (data : RawContext) (opts : FmtOptions) : List Tab :=
  if opts.includeTerminals then data.pinnedFiles
  else data.pinnedFiles.filter (fun f => decide (f.type ≠ TabType.terminal))

/-- Header of the raw report. -/
def rawHeader (data : RawContext) : String :=
  "=== VS CODE RAW CONTEXT ===" ++ "\n" ++ fmtWorkspace data.workspace ++ "\n"

/-- The OPEN_EDITORS section (`includePinnedContent` forced on). -/
def rawOpenSection (fsys : String → Option String) (data : RawContext)
    (opts : FmtOptions) : String :=
  fmtFileList fsys { opts with includePinnedContent := true }
    (rawOpenList data opts) "OPEN_EDITORS" ++ "\n"

/-- The separate PINNED_EDITORS section: only without smart mode and when
pinned files exist. -/
def rawPinnedSection (fsys : String → Option String) (data : RawContext)
    (opts : FmtOptions) : String :=
  if smartModeOn opts = false ∧ (rawPinnedList data opts).isEmpty = false then
    fmtFileList fsys opts (rawPinnedList data opts) "PINNED_EDITORS" ++ "\n"
  else ""

/-- The selections section, skipped when empty. -/
def rawSelectionSection (data : RawContext) (opts : FmtOptions) : String :=
  let s := fmtSelections data.selections opts
  if s ≠ "" ∧ s ≠ "SELECTIONS: none\n" then s ++ "\n" else ""

/-- The summary counts: `TOTAL_OPEN` always, `TOTAL_PINNED` and
`TOTAL_SELECTED` only when positive. -/
def rawCountsSection (data : RawContext) (opts : FmtOptions) : String :=
  "TOTAL_OPEN: " ++ toString (rawOpenList data opts).length ++ "\n" ++
    (if 0 < (rawPinnedList data opts).length then
      "TOTAL_PINNED: " ++ toString (rawPinnedList data opts).length ++ "\n"
     else "") ++
    (if 0 < data.selections.length then
      "TOTAL_SELECTED: " ++ toString data.selections.length ++ "\n"
     else "")

/-- `LLMFormatter.raw`. -/
def fmtRaw (fsys : String → Option String) (data : RawContext)
    (opts : FmtOptions) : String :=
  rawHeader data ++ rawOpenSection fsys data opts ++
    rawPinnedSection fsys data opts ++ rawSelectionSection data opts ++
    rawCountsSection data opts ++ "=== END RAW CONTEXT ===" ++ "\n"

/-! ## Spec-side active-group search (for refinement comparison)

The specification says `resolveActiveTab` locates the focused group by its
identifier wherever that group sits in the grid tree.  The following pair
of functions follows those words (a full recursive search); it is compared
against `getActiveFile`, whose loop visits only the top level. -/

mutual

/-- Recursive search of one node for the group with the given id. -/
def findGroupSpecNode (ag : Option String) : GridNode → Option LeafData
  | GridNode.leaf (some ld) => if some ld.id = ag then some ld else none
  | GridNode.leaf none => none
  | GridNode.branch cs => findGroupSpecList ag cs
  | GridNode.other => none

/-- Recursive search of a node list for the group with the given id. -/
def findGroupSpecList (ag : Option String) : List GridNode → Option LeafData
  | [] => none
  | g :: rest =>
    match findGroupSpecNode ag g with
    | some ld => some ld
    | none => findGroupSpecList ag rest

end

/-- Active file per the specification's words: find the active group
anywhere in the tree, then resolve its most-recently-used head as
`activeFromLeaf` does. -/
def getActiveFileSpec (doc : Option EditorStateDoc) : Option String :=
  match doc with
  | none => none
  | some st =>
    match findGroupSpecList st.activeGroup st.gridData with
    | some ld => activeFromLeaf ld
    | none => none

/-! ## Predicates used by the claim statements -/

/-- Lexicographic order on positions, by `(line, column)`. -/
def lexLe (a b : Pos) : Prop :=
  a.lineNumber < b.lineNumber ∨
    (a.lineNumber = b.lineNumber ∧ a.column ≤ b.column)

/-- A top-level grid node that `getActiveFile`'s loop would accept as the
active group: a leaf whose `data.id` equals the recorded active-group id. -/
def topLeafMatch (ag : Option String) (g : GridNode) : Prop :=
  ∃ ld, g = GridNode.leaf (some ld) ∧ some ld.id = ag

/-! ## Concrete fixtures used by witnesses and counterexamples -/

/-- A process inspector that never resolves a working directory. -/
def pc0 : Nat → Option String := fun _ => none

/-- A file-editor tab descriptor for path `p`. -/
def fileEntryOf (p : String) : EditorEntry :=
  ⟨"workbench.editors.files.fileEditorInput", some ⟨some p, none, none, none, none⟩⟩

/-- A terminal tab descriptor. -/
def termEntryOf : EditorEntry :=
  ⟨"workbench.editors.terminal", some ⟨none, some 42, some "zsh", some "/w", some "t1"⟩⟩

/-- Leaf group with a recorded sticky value of 1 and two file tabs: the
sticky-boundary example of the specification. -/
def c1CexLeaf : LeafData :=
  ⟨some [fileEntryOf "/repo/README.md", fileEntryOf "/repo/src/a.js"],
    some 1, "g1", none⟩

/-- Layout document holding only `c1CexLeaf`. -/
def c1CexDoc : EditorStateDoc := ⟨some "g1", [GridNode.leaf (some c1CexLeaf)]⟩

/-- The tab parsed from `c1CexLeaf` at order index 1 (sticky value 1). -/
def c1CexTab : Tab :=
  { path := "/repo/src/a.js", type := TabType.file, pinned := true,
    groupId := "g1", index := 1 }

/-- Leaf group without a sticky record, for the C10 witness. -/
def c10Leaf : LeafData := ⟨some [fileEntryOf "/repo/a.js"], none, "g2", none⟩

/-- The tab parsed from `c10Leaf`. -/
def c10Tab : Tab :=
  { path := "/repo/a.js", type := TabType.file, pinned := false,
    groupId := "g2", index := 0 }

/-- The active group sits inside a nested branch: the loop of
`getActiveFile` never sees it. -/
def c3CexDoc : EditorStateDoc :=
  ⟨some "g1",
    [GridNode.branch
      [GridNode.leaf (some ⟨some [fileEntryOf "/a"], none, "g1", some [0]⟩)]]⟩

/-- The leaf of the specification's scenario: mru `[2,0,1]`, editors
`[fileA, terminalB, fileC]`. -/
def c3ScenarioLeaf : LeafData :=
  ⟨some [fileEntryOf "/fileA", termEntryOf, fileEntryOf "/fileC"],
    none, "g1", some [2, 0, 1]⟩

/-- Layout document for the scenario, active group `g1` at top level. -/
def c3ScenarioDoc : EditorStateDoc :=
  ⟨some "g1", [GridNode.leaf (some c3ScenarioLeaf)]⟩

/-- A view state whose anchor equals its cursor position. -/
def c5EqState : EditorViewState :=
  ⟨[⟨some true, some ⟨3, 4⟩, some ⟨3, 4⟩⟩]⟩

/-- Default formatter options (plain `vctx` invocation: no terminals, no
legacy format, smart mode left at its default). -/
def defOpts : FmtOptions := {}

/-- A filesystem with no readable files. -/
def fsNone : String → Option String := fun _ => none

/-- A pinned open file in an otherwise plain context. -/
def c8Tab : Tab :=
  { path := "/w/f.js", type := TabType.file, pinned := true,
    groupId := "g", index := 0 }

/-- Context snapshot with one pinned open file. -/
def c8Ctx : RawContext :=
  { workspace := ⟨"wid", "/w"⟩, openFiles := [c8Tab], pinnedFiles := [c8Tab],
    selections := [] }

/-- Filesystem: the pinned file currently contains `aaa`. -/
def fsA : String → Option String :=
  fun p => if p = "/w/f.js" then some "aaa" else none

/-- Filesystem: the pinned file currently contains `bbb`. -/
def fsB : String → Option String :=
  fun p => if p = "/w/f.js" then some "bbb" else none

/-- Filesystem agreeing with `fsA` on the snapshot's file but not elsewhere. -/
def fsA2 : String → Option String :=
  fun p => if p = "/w/f.js" then some "aaa" else some "other"

/-- Context snapshot with no open files, no pinned files, no selections. -/
def emptyCtx : RawContext :=
  { workspace := ⟨"wid", "/w"⟩, openFiles := [], pinnedFiles := [],
    selections := [] }

/-! ## String lemmas -/

theorem strAppend_data (a b : String) : (a ++ b).data = a.data ++ b.data :=
  String.data_append a b

theorem strAppend_assoc (a b c : String) : a ++ b ++ c = a ++ (b ++ c) := by
  apply String.ext
  simp [strAppend_data, List.append_assoc]

theorem strAppend_empty_left (s : String) : "" ++ s = s := by
  apply String.ext
  simp [strAppend_data]

theorem strAppend_empty_right (s : String) : s ++ "" = s := by
  apply String.ext
  simp [strAppend_data]

theorem asString_append (l1 l2 : List Char) :
    l1.asString ++ l2.asString = (l1 ++ l2).asString := by
  apply String.ext
  simp [strAppend_data, List.asString]

theorem str_ne_empty_of_data_length (s : String) (h : 0 < s.data.length) :
    s ≠ "" := by
  intro he
  subst he
  simp at h

/-! ## Layout parser lemmas -/

theorem parseEditor_pinned_index (pc : Nat → Option String) (sticky : Option Nat)
    (gid : String) (i : Nat) (e : EditorEntry) (t : Tab)
    (h : parseEditor pc sticky gid i e = some t) :
    t.pinned = pinnedFlag sticky i ∧ t.index = i := by
  unfold parseEditor at h
  cases hv : e.value with
  | none => rw [hv] at h; exact absurd h (by simp)
  | some d =>
    rw [hv] at h
    dsimp only at h
    by_cases h1 : e.id = "workbench.editors.files.fileEditorInput"
    · rw [if_pos h1] at h
      cases hf : d.fsPath with
      | none => rw [hf] at h; exact absurd h (by simp)
      | some p =>
        rw [hf] at h
        dsimp only at h
        by_cases hp : p = ""
        · rw [if_pos hp] at h; exact absurd h (by simp)
        · rw [if_neg hp] at h
          cases Option.some.inj h
          exact ⟨rfl, rfl⟩
    · rw [if_neg h1] at h
      by_cases h2 : e.id = "workbench.editors.terminal"
      · rw [if_pos h2] at h
        cases Option.some.inj h
        exact ⟨rfl, rfl⟩
      · rw [if_neg h2] at h; exact absurd h (by simp)

theorem mem_parseEditorsLoop (pc : Nat → Option String) (sticky : Option Nat)
    (gid : String) :
    ∀ (i : Nat) (es : List EditorEntry) (t : Tab),
      t ∈ parseEditorsLoop pc sticky gid i es →
      t.pinned = pinnedFlag sticky t.index := by
  intro i es
  induction es generalizing i with
  | nil => intro t h; simp [parseEditorsLoop] at h
  | cons e es ih =>
    intro t h
    unfold parseEditorsLoop at h
    cases hp : parseEditor pc sticky gid i e with
    | none =>
      rw [hp] at h
      exact ih (i + 1) t h
    | some t0 =>
      rw [hp] at h
      rcases List.mem_cons.mp h with h1 | h2
      · subst h1
        obtain ⟨hpin, hidx⟩ := parseEditor_pinned_index pc sticky gid i e t hp
        rw [hpin, hidx]
      · exact ih (i + 1) t h2

theorem mem_processLeafEditors_pinned (pc : Nat → Option String) (ld : LeafData)
    (t : Tab) (ht : t ∈ processLeafEditors pc ld) :
    t.pinned = pinnedFlag ld.sticky t.index := by
  unfold processLeafEditors at ht
  cases he : ld.editors with
  | none => rw [he] at ht; simp at ht
  | some es =>
    rw [he] at ht
    exact mem_parseEditorsLoop pc ld.sticky ld.id 0 es t ht

/-! ## Claim C1 -/

/-- C1: as stated ("pinned iff order index strictly less than the recorded
sticky value"), the claim is false on the code, which pins `index <= sticky`.
In a group with recorded sticky value 1, the tab at order index 1 is pinned
by the source although `1 < 1` fails. -/
theorem c1_counterexample :
    ¬ (∀ t ∈ getOpenFiles pc0 (some c1CexDoc), t.pinned = true ↔ t.index < 1) := by
  decide

/-- C1 (amended): for every leaf group with recorded sticky value `n`,
every tab parsed from that group is pinned iff its order index is at most
`n` (the index equal to the recorded value is included; the recorded value
is VS Code's index of the last sticky tab, not a count). -/
theorem c1_pinned_iff_le_sticky (pc : Nat → Option String) (ld : LeafData)
    (n : Nat) (t : Tab) (hs : ld.sticky = some n)
    (ht : t ∈ processLeafEditors pc ld) :
    t.pinned = true ↔ t.index ≤ n := by
  have h := mem_processLeafEditors_pinned pc ld t ht
  rw [hs] at h
  unfold pinnedFlag at h
  rw [h]
  exact decide_eq_true_iff

/-- C1 witness: the amended theorem applied to the boundary example. -/
theorem c1_witness : c1CexTab.pinned = true ↔ c1CexTab.index ≤ 1 :=
  c1_pinned_iff_le_sticky pc0 c1CexLeaf 1 c1CexTab rfl (by decide)

/-! ## Claim C10 -/

/-- C10: in a leaf group without a recorded sticky value, every parsed tab
is unpinned, whatever its order index. -/
theorem c10_no_sticky_unpinned (pc : Nat → Option String) (ld : LeafData)
    (t : Tab) (hs : ld.sticky = none) (ht : t ∈ processLeafEditors pc ld) :
    t.pinned = false := by
  have h := mem_processLeafEditors_pinned pc ld t ht
  rw [hs] at h
  exact h

/-- C10 witness: applied to a concrete sticky-less group. -/
theorem c10_witness : c10Tab.pinned = false :=
  c10_no_sticky_unpinned pc0 c10Leaf c10Tab rfl (by decide)

/-! ## Claim C4 -/

/-- C4: the normalized range is ordered (`start <= end` lexicographically
on line then column) and swapping anchor and position yields the same
normalized pair and the same emitted range string. -/
theorem c4_normalized_order_and_swap (s e : Pos) :
    lexLe (normPair s e).1 (normPair s e).2 ∧ normPair e s = normPair s e ∧
      emitRange e s = emitRange s e := by
  obtain ⟨sl, sc⟩ := s
  obtain ⟨el, ec⟩ := e
  have hswap : normPair ⟨el, ec⟩ ⟨sl, sc⟩ = normPair ⟨sl, sc⟩ ⟨el, ec⟩ := by
    unfold normPair isBackwardSel
    rcases Nat.lt_trichotomy sl el with h | h | h
    · have h1 : ¬ el < sl := Nat.lt_asymm h
      have h2 : sl ≠ el := Nat.ne_of_lt h
      have h3 : el ≠ sl := Ne.symm h2
      simp [h, h1, h2, h3]
    · subst h
      rcases Nat.lt_trichotomy sc ec with hc | hc | hc
      · simp [hc, Nat.lt_asymm hc, Nat.lt_irrefl]
      · subst hc; simp
      · simp [hc, Nat.lt_asymm hc, Nat.lt_irrefl]
    · have h1 : ¬ sl < el := Nat.lt_asymm h
      have h2 : el ≠ sl := Nat.ne_of_lt h
      have h3 : sl ≠ el := Ne.symm h2
      simp [h, h1, h2, h3]
  have hle : lexLe (normPair ⟨sl, sc⟩ ⟨el, ec⟩).1 (normPair ⟨sl, sc⟩ ⟨el, ec⟩).2 := by
    unfold normPair isBackwardSel lexLe
    rcases Nat.lt_trichotomy sl el with h | h | h
    · have h1 : ¬ el < sl := Nat.lt_asymm h
      have h2 : sl ≠ el := Nat.ne_of_lt h
      simp [h, h1, h2]
    · subst h
      rcases Nat.lt_trichotomy sc ec with hc | hc | hc
      · simp [hc, Nat.lt_asymm hc, Nat.lt_irrefl, Nat.le_of_lt hc]
      · subst hc; simp
      · simp [hc, Nat.lt_asymm hc, Nat.lt_irrefl, Nat.le_of_lt hc]
    · simp [h]
  refine ⟨hle, hswap, ?_⟩
  unfold emitRange
  rw [hswap]

/-! ## Claim C5 -/

theorem stateRange_some_conditions (st : EditorViewState) (r : String)
    (h : stateRange st = some r) :
    ∃ cs s e, st.cursorState.head? = some cs ∧
      cs.inSelectionMode = some true ∧
      cs.selectionStart = some s ∧ cs.position = some e ∧
      (s.lineNumber ≠ e.lineNumber ∨ s.column ≠ e.column) := by
  unfold stateRange at h
  cases hh : st.cursorState.head? with
  | none => rw [hh] at h; exact absurd h (by simp)
  | some cs =>
    rw [hh] at h
    dsimp only at h
    by_cases hm : cs.inSelectionMode = some true
    · rw [if_pos hm] at h
      cases hs : cs.selectionStart with
      | none =>
        rw [hs] at h
        dsimp only at h
        exact absurd h (by simp)
      | some s =>
        cases hp : cs.position with
        | none =>
          rw [hs, hp] at h
          dsimp only at h
          exact absurd h (by simp)
        | some e =>
          rw [hs, hp] at h
          dsimp only at h
          by_cases hd : s.lineNumber ≠ e.lineNumber ∨ s.column ≠ e.column
          · exact ⟨cs, s, e, rfl, hm, hs, hp, hd⟩
          · rw [if_neg hd] at h; exact absurd h (by simp)
    · rw [if_neg hm] at h; exact absurd h (by simp)

/-- C5: a range is recorded only from a view state whose first cursor
state has `inSelectionMode` literally `true` and whose anchor differs from
the cursor position in line or column; a state whose anchor equals its
position contributes no range. -/
theorem c5_selection_requires_flag_and_difference :
    (∀ (vs : ViewStateDoc) (sel : Selection) (r : String),
        sel ∈ getSelections (some vs) → r ∈ sel.ranges →
        ∃ entry, entry ∈ vs.textEditorViewState ∧
          ∃ kv, kv ∈ entry.2 ∧ stateRange kv.2 = some r ∧
            ∃ cs s e, (kv.2).cursorState.head? = some cs ∧
              cs.inSelectionMode = some true ∧
              cs.selectionStart = some s ∧ cs.position = some e ∧
              (s.lineNumber ≠ e.lineNumber ∨ s.column ≠ e.column)) ∧
    (∀ (st : EditorViewState) (cs : CursorState) (p : Pos),
        st.cursorState.head? = some cs → cs.selectionStart = some p →
        cs.position = some p → stateRange st = none) := by
  constructor
  · intro vs sel r hsel hr
    unfold getSelections at hsel
    dsimp only at hsel
    obtain ⟨pr, hpr, hfr⟩ := List.mem_filterMap.mp hsel
    by_cases hre : (pr.2.filterMap (fun kv => stateRange kv.2)).isEmpty
    · rw [if_pos hre] at hfr; exact absurd hfr (by simp)
    · rw [if_neg hre] at hfr
      cases Option.some.inj hfr
      dsimp only at hr
      obtain ⟨kv, hkv, hsr⟩ := List.mem_filterMap.mp hr
      obtain ⟨cs, s, e, h1, h2, h3, h4, h5⟩ := stateRange_some_conditions kv.2 r hsr
      exact ⟨pr, hpr, kv, hkv, hsr, cs, s, e, h1, h2, h3, h4, h5⟩
  · intro st cs p h1 h2 h3
    unfold stateRange
    rw [h1]
    dsimp only
    by_cases hm : cs.inSelectionMode = some true
    · rw [if_pos hm, h2, h3]
      dsimp only
      rw [if_neg]
      simp
    · rw [if_neg hm]

/-- C5 witness: a state with anchor equal to position yields no range. -/
theorem c5_witness : stateRange c5EqState = none :=
  c5_selection_requires_flag_and_difference.2 c5EqState
    ⟨some true, some ⟨3, 4⟩, some ⟨3, 4⟩⟩ ⟨3, 4⟩ rfl rfl rfl

/-! ## Claim C7 -/

/-- C7: below the top level every failure degrades to an empty or absent
result: a missing/unparseable layout document yields no tabs, a
missing/unparseable selection document yields no selections, a missing
layout yields no active file, an unreadable file yields no content, and an
individual tab descriptor with a missing/unparseable nested value or an
unrecognized kind is skipped. -/
theorem c7_degrade_to_empty :
    (∀ pc, getOpenFiles pc none = []) ∧
    getSelections none = [] ∧
    getActiveFile none = none ∧
    (∀ rs, extractSelectedContent none rs = none) ∧
    (∀ pc sticky gid i (e : EditorEntry), e.value = none →
        parseEditor pc sticky gid i e = none) ∧
    (∀ pc sticky gid i (e : EditorEntry),
        e.id ≠ "workbench.editors.files.fileEditorInput" →
        e.id ≠ "workbench.editors.terminal" →
        parseEditor pc sticky gid i e = none) := by
  refine ⟨fun pc => rfl, rfl, rfl, fun rs => rfl, ?_, ?_⟩
  · intro pc sticky gid i e hv
    unfold parseEditor
    rw [hv]
  · intro pc sticky gid i e h1 h2
    unfold parseEditor
    cases hv : e.value with
    | none => rfl
    | some d =>
      dsimp only
      rw [if_neg h1, if_neg h2]

/-- C7 witness: a file-editor descriptor whose nested JSON failed to parse
is skipped. -/
theorem c7_witness :
    parseEditor pc0 none "g" 0
      ⟨"workbench.editors.files.fileEditorInput", none⟩ = none :=
  c7_degrade_to_empty.2.2.2.2.1 pc0 none "g" 0
    ⟨"workbench.editors.files.fileEditorInput", none⟩ rfl

/-! ## Claim C6 -/

theorem find?_first {α : Type} (p : α → Bool) :
    ∀ (l : List α) (a : α), l.find? p = some a →
      ∃ pre post, l = pre ++ a :: post ∧ p a = true ∧ ∀ x ∈ pre, p x = false := by
  intro l
  induction l with
  | nil => intro a h; simp at h
  | cons x t ih =>
    intro a h
    cases hx : p x with
    | true =>
      rw [List.find?_cons_of_pos _ hx] at h
      cases Option.some.inj h
      exact ⟨[], t, rfl, hx, by simp⟩
    | false =>
      rw [List.find?_cons_of_neg _ (by simp [hx])] at h
      obtain ⟨pre, post, h1, h2, h3⟩ := ih a h
      refine ⟨x :: pre, post, by rw [h1]; rfl, h2, ?_⟩
      intro y hy
      rcases List.mem_cons.mp hy with rfl | hy2
      · exact hx
      · exact h3 y hy2

/-- C6: `findWorkspaceByFile` returns the first workspace (in list order)
whose folder path is a plain string prefix of the resolved file path,
without any path-separator boundary check (a workspace at `/a/b` matches a
file under `/a/bc/`); with no prefix match, the lookup fails with the
no-workspace error and the CLI reports exit code 1. -/
theorem c6_first_prefix_match_or_error :
    (∀ (resolve : String → String) (wss : List Workspace) (fp : String)
        (ws : Workspace),
        findWorkspaceByFile resolve wss fp = some ws →
        ∃ pre post, wss = pre ++ ws :: post ∧
          jsStartsWith (resolve fp) ws.folder = true ∧
          ∀ w ∈ pre, jsStartsWith (resolve fp) w.folder = false) ∧
    (findWorkspaceByFile id [⟨"w1", "/a/b"⟩] "/a/bc/f.js" =
      some ⟨"w1", "/a/b"⟩) ∧
    (∀ (resolve : String → String) (wss : List Workspace) (fp : String),
        (∀ w ∈ wss, jsStartsWith (resolve fp) w.folder = false) →
        getRawContextWorkspace resolve wss fp =
          Except.error ("No workspace found for file: " ++ fp) ∧
        cliExitCode (getRawContextWorkspace resolve wss fp) = 1) := by
  refine ⟨?_, by decide, ?_⟩
  · intro resolve wss fp ws h
    exact find?_first _ wss ws h
  · intro resolve wss fp hall
    have hn : findWorkspaceByFile resolve wss fp = none := by
      unfold findWorkspaceByFile
      rw [List.find?_eq_none]
      intro a ha
      rw [hall a ha]
      simp
    have herr : getRawContextWorkspace resolve wss fp =
        Except.error ("No workspace found for file: " ++ fp) := by
      unfold getRawContextWorkspace
      rw [hn]
    exact ⟨herr, by rw [herr]; rfl⟩

/-- C6 witness: no workspace prefixes the path, so the lookup errors and
the exit code is 1. -/
theorem c6_witness :
    getRawContextWorkspace id [⟨"w", "/x"⟩] "/y/f.js" =
      Except.error ("No workspace found for file: " ++ "/y/f.js") ∧
    cliExitCode (getRawContextWorkspace id [⟨"w", "/x"⟩] "/y/f.js") = 1 :=
  c6_first_prefix_match_or_error.2.2 id [⟨"w", "/x"⟩] "/y/f.js" (by decide)

/-! ## Claim C3 -/

theorem findActiveInList_skip (ag : String) :
    ∀ (pre rest : List GridNode),
      (∀ g ∈ pre, ¬ topLeafMatch (some ag) g) →
      findActiveInList (some ag) (pre ++ rest) =
        findActiveInList (some ag) rest := by
  intro pre
  induction pre with
  | nil => intro rest _; rfl
  | cons g t ih =>
    intro rest h
    have hg := h g (List.mem_cons_self g t)
    have ht := fun x hx => h x (List.mem_cons_of_mem g hx)
    cases g with
    | leaf od =>
      cases od with
      | none => exact ih rest ht
      | some ld =>
        have hne : ¬ (some ld.id = some ag) := fun hEq => hg ⟨ld, rfl, hEq⟩
        have hstep : findActiveInList (some ag)
            (GridNode.leaf (some ld) :: (t ++ rest)) =
            findActiveInList (some ag) (t ++ rest) := by
          simp only [findActiveInList]
          rw [if_neg hne]
        calc findActiveInList (some ag) ((GridNode.leaf (some ld) :: t) ++ rest)
            = findActiveInList (some ag) (t ++ rest) := hstep
          _ = findActiveInList (some ag) rest := ih rest ht
    | branch cs => exact ih rest ht
    | other => exact ih rest ht

/-- C3 (amended): `getActiveFile` looks for the active group only among the
top-level entries of the grid (nested branches are never searched); at the
first top-level leaf whose id matches it resolves the head of the group's
mru list, and returns a path exactly when that entry is a file-editor tab
with a parseable value and a non-empty `fsPath`. -/
theorem c3_active_group_top_level_resolution :
    (∀ (ag : String) (pre post : List GridNode) (ld : LeafData),
        (∀ g ∈ pre, ¬ topLeafMatch (some ag) g) → ld.id = ag →
        getActiveFile (some ⟨some ag, pre ++ GridNode.leaf (some ld) :: post⟩) =
          activeFromLeaf ld) ∧
    (∀ (ld : LeafData) (p : String),
        activeFromLeaf ld = some p ↔
          ∃ ai e d, (ld.mru.getD []).head? = some ai ∧
            (ld.editors.getD []).get? ai = some e ∧
            e.id = "workbench.editors.files.fileEditorInput" ∧
            e.value = some d ∧ d.fsPath = some p ∧ p ≠ "") := by
  constructor
  · intro ag pre post ld hpre hid
    show findActiveInList (some ag) (pre ++ GridNode.leaf (some ld) :: post) =
      activeFromLeaf ld
    rw [findActiveInList_skip ag pre _ hpre]
    unfold findActiveInList
    rw [if_pos (by rw [hid])]
  · intro ld p
    constructor
    · intro h
      unfold activeFromLeaf at h
      cases h1 : (ld.mru.getD []).head? with
      | none => rw [h1] at h; exact absurd h (by simp)
      | some ai =>
        rw [h1] at h
        dsimp only at h
        cases h2 : (ld.editors.getD []).get? ai with
        | none => rw [h2] at h; exact absurd h (by simp)
        | some e =>
          rw [h2] at h
          dsimp only at h
          by_cases h3 : e.id = "workbench.editors.files.fileEditorInput"
          · rw [if_pos h3] at h
            cases h4 : e.value with
            | none => rw [h4] at h; exact absurd h (by simp)
            | some d =>
              rw [h4] at h
              dsimp only at h
              cases h5 : d.fsPath with
              | none => rw [h5] at h; exact absurd h (by simp)
              | some q =>
                rw [h5] at h
                dsimp only at h
                by_cases h6 : q = ""
                · rw [if_pos h6] at h; exact absurd h (by simp)
                · rw [if_neg h6] at h
                  cases Option.some.inj h
                  exact ⟨ai, e, d, rfl, h2, h3, h4, h5, h6⟩
          · rw [if_neg h3] at h; exact absurd h (by simp)
    · rintro ⟨ai, e, d, h1, h2, h3, h4, h5, h6⟩
      unfold activeFromLeaf
      rw [h1]
      dsimp only
      rw [h2]
      dsimp only
      rw [if_pos h3, h4]
      dsimp only
      rw [h5]
      dsimp only
      rw [if_neg h6]

/-- C3 counterexample: the claim as stated resolves the active group
wherever it sits in the tree; with active group `g1` inside a nested
branch, the spec-following search finds the file but the source returns
absent (its loop never descends into branches). -/
theorem c3_counterexample :
    getActiveFile (some c3CexDoc) = none ∧
    getActiveFileSpec (some c3CexDoc) = some "/a" ∧
    (none : Option String) ≠ some "/a" := by
  refine ⟨rfl, rfl, by simp⟩

/-- C3 witness: the amended theorem applied to the specification's own
scenario (active group at top level, mru `[2,0,1]`, editors
`[fileA, terminalB, fileC]`), which resolves to `fileC`. -/
theorem c3_witness :
    getActiveFile (some c3ScenarioDoc) = activeFromLeaf c3ScenarioLeaf ∧
    activeFromLeaf c3ScenarioLeaf = some "/fileC" :=
  ⟨c3_active_group_top_level_resolution.1 "g1" [] [] c3ScenarioLeaf
      (by simp) rfl,
    by decide⟩

/-! ## Claim C9 -/

theorem joinSep_cons_head (sep x : String) (xs : List String) :
    ∃ r, joinSep sep (x :: xs) = x ++ r := by
  cases xs with
  | nil => exact ⟨"", (strAppend_empty_right x).symm⟩
  | cons y ys =>
    refine ⟨sep ++ joinSep sep (y :: ys), ?_⟩
    simp only [joinSep]
    rw [strAppend_assoc]

/-- C9 (amended): with smart mode on, the separate pinned section is empty
(so the report is exactly header, open list, selections and counts), the
pinned and selected count lines are omitted when their counts are zero, and
every pinned tab's entry line carries the inline `[PINNED]` tag — but the
open count line is always present, even when the open count is zero. -/
theorem c9_smart_mode_rendering (fsys : String → Option String)
    (data : RawContext) (opts : FmtOptions) (hs : smartModeOn opts = true) :
    rawPinnedSection fsys data opts = "" ∧
    fmtRaw fsys data opts =
      rawHeader data ++ rawOpenSection fsys data opts ++
        rawSelectionSection data opts ++ rawCountsSection data opts ++
        "=== END RAW CONTEXT ===" ++ "\n" ∧
    ((rawPinnedList data opts).length = 0 →
      rawCountsSection data opts =
        "TOTAL_OPEN: " ++ toString (rawOpenList data opts).length ++ "\n" ++
          (if 0 < data.selections.length then
            "TOTAL_SELECTED: " ++ toString data.selections.length ++ "\n"
           else "")) ∧
    (data.selections.length = 0 →
      rawCountsSection data opts =
        "TOTAL_OPEN: " ++ toString (rawOpenList data opts).length ++ "\n" ++
          (if 0 < (rawPinnedList data opts).length then
            "TOTAL_PINNED: " ++ toString (rawPinnedList data opts).length ++ "\n"
           else "")) ∧
    (∀ (i : Nat) (t : Tab), t.pinned = true →
      ∃ a b, fmtFileEntry fsys { opts with includePinnedContent := true } i t =
        a ++ ("[PINNED]" ++ b)) := by
  have hpinned : rawPinnedSection fsys data opts = "" := by
    unfold rawPinnedSection
    rw [if_neg]
    intro hc
    rw [hs] at hc
    exact Bool.noConfusion hc.1
  refine ⟨hpinned, ?_, ?_, ?_, ?_⟩
  · unfold fmtRaw
    rw [hpinned, strAppend_empty_right]
  · intro h0
    unfold rawCountsSection
    rw [if_neg (show ¬ 0 < (rawPinnedList data opts).length by omega),
      strAppend_empty_right]
  · intro h0
    unfold rawCountsSection
    rw [if_neg (show ¬ 0 < data.selections.length by omega),
      strAppend_empty_right]
  · intro i t hp
    obtain ⟨r, hr⟩ := joinSep_cons_head " " "[PINNED]"
      ((if t.type = TabType.terminal then ["[TERMINAL]"] else []) ++
        (if t.selections.isEmpty then []
         else ["[SELECTED:" ++ joinSep "," t.selections ++ "]"]))
    refine ⟨"  " ++ toString (i + 1) ++ ". " ++ t.path ++ " ",
      r ++ ("\n" ++
        fmtEntryContent fsys { opts with includePinnedContent := true } t), ?_⟩
    unfold fmtFileEntry fmtEntryLine fmtEntryStatus
    rw [hp]
    simp only [if_true, List.cons_append, List.nil_append, List.isEmpty_cons,
      Bool.false_eq_true, if_false]
    rw [hr]
    simp only [strAppend_assoc]

/-- C9 counterexample: the claim as stated says every zero-count line is
omitted, including the open count; in an empty snapshot under smart mode,
the rendered counts section is exactly the zero open-count line, and the
full report contains it. -/
theorem c9_counterexample :
    smartModeOn defOpts = true ∧
    (rawOpenList emptyCtx defOpts).length = 0 ∧
    rawCountsSection emptyCtx defOpts = "TOTAL_OPEN: 0" ++ "\n" ∧
    fmtRaw fsNone emptyCtx defOpts =
      ("=== VS CODE RAW CONTEXT ===\nWORKSPACE: /w\nWORKSPACE_ID: wid\n\nOPEN_EDITORS: none\n\n" ++
        ("TOTAL_OPEN: 0" ++ "\n")) ++ "=== END RAW CONTEXT ===\n" := by
  refine ⟨rfl, rfl, by decide, by decide⟩

/-- C9 witness: the amended theorem applied to the empty snapshot. -/
theorem c9_witness : rawPinnedSection fsNone emptyCtx defOpts = "" :=
  (c9_smart_mode_rendering fsNone emptyCtx defOpts rfl).1

/-! ## Claim C8 -/

theorem fmtFileEntry_congr (fs1 fs2 : String → Option String)
    (opts : FmtOptions) (i : Nat) (t : Tab) (h : fs1 t.path = fs2 t.path) :
    fmtFileEntry fs1 opts i t = fmtFileEntry fs2 opts i t := by
  unfold fmtFileEntry fmtEntryContent
  rw [h]

theorem fmtFileEntriesLoop_congr (fs1 fs2 : String → Option String)
    (opts : FmtOptions) :
    ∀ (files : List Tab) (i : Nat),
      (∀ t ∈ files, fs1 t.path = fs2 t.path) →
      fmtFileEntriesLoop fs1 opts i files = fmtFileEntriesLoop fs2 opts i files := by
  intro files
  induction files with
  | nil => intro i _; rfl
  | cons f fs ih =>
    intro i h
    simp only [fmtFileEntriesLoop]
    rw [fmtFileEntry_congr fs1 fs2 opts i f (h f (List.mem_cons_self f fs)),
      ih (i + 1) (fun x hx => h x (List.mem_cons_of_mem f hx))]

theorem fmtFileList_congr (fs1 fs2 : String → Option String)
    (opts : FmtOptions) (files : List Tab) (title : String)
    (h : ∀ t ∈ files, fs1 t.path = fs2 t.path) :
    fmtFileList fs1 opts files title = fmtFileList fs2 opts files title := by
  unfold fmtFileList
  by_cases he : files.isEmpty
  · rw [if_pos he, if_pos he]
  · rw [if_neg he, if_neg he, fmtFileEntriesLoop_congr fs1 fs2 opts files 0 h]

theorem rawOpenList_sub (data : RawContext) (opts : FmtOptions) :
    ∀ t ∈ rawOpenList data opts, t ∈ data.openFiles := by
  intro t ht
  unfold rawOpenList at ht
  by_cases hit : opts.includeTerminals
  · rw [if_pos hit] at ht; exact ht
  · rw [if_neg hit] at ht; exact (List.mem_filter.mp ht).1

theorem rawPinnedList_sub (data : RawContext) (opts : FmtOptions) :
    ∀ t ∈ rawPinnedList data opts, t ∈ data.pinnedFiles := by
  intro t ht
  unfold rawPinnedList at ht
  by_cases hit : opts.includeTerminals
  · rw [if_pos hit] at ht; exact ht
  · rw [if_neg hit] at ht; exact (List.mem_filter.mp ht).1

/-- C8 (amended): the rendered report is a pure function of the Context
snapshot, the option bundle and the current contents of the files listed in
the snapshot: two renderings that agree on those file contents are
identical (there is no randomness or time dependence), but the renderer
does re-read the listed files from disk, so the snapshot and configuration
alone do not determine the output. -/
theorem c8_deterministic_given_snapshot_and_files (data : RawContext)
    (opts : FmtOptions) (fs1 fs2 : String → Option String)
    (ho : ∀ t ∈ data.openFiles, fs1 t.path = fs2 t.path)
    (hp : ∀ t ∈ data.pinnedFiles, fs1 t.path = fs2 t.path) :
    fmtRaw fs1 data opts = fmtRaw fs2 data opts := by
  have hopen : rawOpenSection fs1 data opts = rawOpenSection fs2 data opts := by
    unfold rawOpenSection
    rw [fmtFileList_congr fs1 fs2 _ _ _
      (fun t ht => ho t (rawOpenList_sub data opts t ht))]
  have hpin : rawPinnedSection fs1 data opts = rawPinnedSection fs2 data opts := by
    unfold rawPinnedSection
    rw [fmtFileList_congr fs1 fs2 opts _ _
      (fun t ht => hp t (rawPinnedList_sub data opts t ht))]
  unfold fmtRaw
  rw [hopen, hpin]

/-- C8 counterexample: identical snapshot and configuration, but the pinned
file's on-disk content differs between the two runs; the rendered reports
differ, refuting determinism from snapshot and configuration alone. -/
theorem c8_counterexample : fmtRaw fsA c8Ctx defOpts ≠ fmtRaw fsB c8Ctx defOpts := by
  decide

/-- C8 witness: the amended theorem applied to two filesystems that agree
on the snapshot's file. -/
theorem c8_witness : fmtRaw fsA c8Ctx defOpts = fmtRaw fsA2 c8Ctx defOpts :=
  c8_deterministic_given_snapshot_and_files c8Ctx defOpts fsA fsA2
    (by decide) (by decide)

/-! ## Claim C2 -/

theorem sliceLoop_append (lines : List String) (sl0 sc0 el0 ec0 : Nat)
    (is js : List Nat) :
    sliceLoop lines sl0 sc0 el0 ec0 (is ++ js) =
      sliceLoop lines sl0 sc0 el0 ec0 is ++ sliceLoop lines sl0 sc0 el0 ec0 js := by
  induction is with
  | nil =>
    simp only [List.nil_append, sliceLoop]
    rw [strAppend_empty_left]
  | cons i t ih =>
    have hone : sliceLoop lines sl0 sc0 el0 ec0 (i :: (t ++ js)) =
        sliceContrib lines sl0 sc0 el0 ec0 i ++
          sliceLoop lines sl0 sc0 el0 ec0 (t ++ js) := rfl
    have hone2 : sliceLoop lines sl0 sc0 el0 ec0 (i :: t) =
        sliceContrib lines sl0 sc0 el0 ec0 i ++
          sliceLoop lines sl0 sc0 el0 ec0 t := rfl
    rw [List.cons_append, hone, ih, hone2, strAppend_assoc]

theorem drop_take_cons {α : Type} (l : List α) (d : α) (a k : Nat)
    (h : a < l.length) :
    (l.drop a).take (k + 1) = l.getD a d :: (l.drop (a + 1)).take k := by
  rw [List.drop_eq_getElem_cons h, List.getD_eq_getElem l d h]
  rfl

theorem slice_tail_part (lines : List String) (sl0 sc0 el0 ec0 : Nat)
    (hel : el0 < lines.length) :
    ∀ (m a : Nat), a + m = el0 → sl0 < a →
      sliceLoop lines sl0 sc0 el0 ec0 (List.range' a (m + 1)) =
        concatAll (((lines.drop a).take m).map
            (fun l => if l = "" then "" else l ++ "\n")) ++
          sliceContrib lines sl0 sc0 el0 ec0 el0 := by
  intro m
  induction m with
  | zero =>
    intro a ha hlt
    have haq : a = el0 := by omega
    subst haq
    rw [List.range'_succ]
    simp only [List.range'_zero, sliceLoop, List.take_zero, List.map_nil,
      concatAll]
    rw [strAppend_empty_right, strAppend_empty_left]
  | succ m ih =>
    intro a ha hlt
    have hae : a < el0 := by omega
    have haL : a < lines.length := Nat.lt_trans hae hel
    have hrange : List.range' a (m + 1 + 1) = a :: List.range' (a + 1) (m + 1) := by
      rw [List.range'_succ]
    have hone : sliceLoop lines sl0 sc0 el0 ec0 (a :: List.range' (a + 1) (m + 1)) =
        sliceContrib lines sl0 sc0 el0 ec0 a ++
          sliceLoop lines sl0 sc0 el0 ec0 (List.range' (a + 1) (m + 1)) := rfl
    have hca : sliceContrib lines sl0 sc0 el0 ec0 a =
        (if lines.getD a "" = "" then "" else lines.getD a "" ++ "\n") := by
      simp only [sliceContrib]
      by_cases he : lines.getD a "" = ""
      · rw [if_pos he, if_pos he]
      · rw [if_neg he, if_neg he, if_neg (show ¬ a = sl0 by omega),
          if_neg (show ¬ a = el0 by omega)]
    rw [hrange, hone, ih (a + 1) (by omega) (by omega), hca,
      drop_take_cons lines "" a m haL]
    simp only [List.map_cons, concatAll]
    rw [strAppend_assoc]

theorem joinSep_filter_decomp :
    ∀ (mids : List String) (x z : String),
      joinSep "\n" (x :: (mids.filter (fun l => l ≠ "") ++ [z])) =
        x ++ ("\n" ++
          (concatAll (mids.map (fun l => if l = "" then "" else l ++ "\n")) ++ z)) := by
  intro mids
  induction mids with
  | nil =>
    intro x z
    simp only [List.filter_nil, List.nil_append, List.map_nil, concatAll]
    rw [strAppend_empty_left]
    simp only [joinSep]
    rw [strAppend_assoc]
  | cons l ls ih =>
    intro x z
    by_cases hl : l = ""
    · subst hl
      have hfil : List.filter (fun l => decide (l ≠ "")) ("" :: ls) =
          List.filter (fun l => decide (l ≠ "")) ls := by
        simp [List.filter_cons]
      have hmap : List.map (fun l => if l = "" then "" else l ++ "\n") ("" :: ls) =
          "" :: List.map (fun l => if l = "" then "" else l ++ "\n") ls := by
        simp [List.map_cons]
      rw [hfil, hmap]
      have hcat : concatAll
          ("" :: List.map (fun l => if l = "" then "" else l ++ "\n") ls) =
          "" ++ concatAll (List.map (fun l => if l = "" then "" else l ++ "\n") ls) :=
        rfl
      rw [hcat, strAppend_empty_left]
      exact ih x z
    · simp only [List.filter_cons, List.map_cons]
      rw [if_pos (by simp [hl]), if_neg hl]
      have hstep : joinSep "\n" (x :: l :: (ls.filter (fun l => l ≠ "") ++ [z])) =
          x ++ "\n" ++ joinSep "\n" (l :: (ls.filter (fun l => l ≠ "") ++ [z])) := by
        simp only [joinSep]
      rw [List.cons_append, hstep, ih l z]
      simp only [concatAll, strAppend_assoc]

theorem jsSubstringFrom_eq (s : String) (a : Nat) (h : a ≤ s.data.length) :
    jsSubstringFrom s a = (s.data.drop a).asString := by
  simp only [jsSubstringFrom]
  rw [Nat.min_eq_left h]

theorem jsSubstring_eq (s : String) (a b : Nat) (ha : a ≤ b)
    (hb : b ≤ s.data.length) :
    jsSubstring s a b = ((s.data.drop a).take (b - a)).asString := by
  simp only [jsSubstring]
  rw [Nat.min_eq_left (Nat.le_trans ha hb), Nat.min_eq_left hb,
    Nat.min_eq_left ha, Nat.max_eq_right ha]

theorem sliceOne_eq_amended (lines : List String) (r : RangeQ)
    (hv : ValidRange lines r) :
    sliceOneRange lines r = amendedSliceRange lines r := by
  obtain ⟨h1, h2, h3, h4, h5, h6, h7, h8⟩ := hv
  by_cases hse : r.startLine = r.endLine
  · have hsc := h8 hse
    have hlenS : r.startCol ≤ (lines.getD (r.startLine - 1) "").data.length := h5
    have hlenE : r.endCol ≤ (lines.getD (r.startLine - 1) "").data.length := by
      rw [hse]; exact h7
    have hne : lines.getD (r.startLine - 1) "" ≠ "" :=
      str_ne_empty_of_data_length _ (by omega)
    simp only [sliceOneRange, amendedSliceRange]
    rw [if_pos (show r.startLine - 1 = r.endLine - 1 by omega), if_pos hse,
      if_neg hne]
    simp only [specColumnSub]
    rw [jsSubstring_eq _ _ _ (by omega) (by omega)]
    have harith : r.endCol - 1 + 1 - (r.startCol - 1) = r.endCol + 1 - r.startCol := by
      omega
    rw [harith]
  · have hlt : r.startLine < r.endLine := by omega
    have hneS : lines.getD (r.startLine - 1) "" ≠ "" :=
      str_ne_empty_of_data_length _ (by omega)
    have hneE : lines.getD (r.endLine - 1) "" ≠ "" :=
      str_ne_empty_of_data_length _ (by omega)
    simp only [sliceOneRange, amendedSliceRange]
    simp only [List.cons_append, List.nil_append]
    rw [if_neg (show ¬ r.startLine - 1 = r.endLine - 1 by omega), if_neg hse]
    rw [Nat.min_eq_left (show r.startLine - 1 ≤ r.endLine - 1 by omega),
      Nat.max_eq_right (show r.startLine - 1 ≤ r.endLine - 1 by omega)]
    have hN : r.endLine - 1 + 1 - (r.startLine - 1) =
        (r.endLine - 1 - (r.startLine - 1) - 1) + 1 + 1 := by omega
    have hrange : List.range' (r.startLine - 1)
        ((r.endLine - 1 - (r.startLine - 1) - 1) + 1 + 1) =
        (r.startLine - 1) :: List.range' (r.startLine - 1 + 1)
          ((r.endLine - 1 - (r.startLine - 1) - 1) + 1) := by
      rw [List.range'_succ]
    have hone : sliceLoop lines (r.startLine - 1) (r.startCol - 1)
        (r.endLine - 1) (r.endCol - 1)
        ((r.startLine - 1) :: List.range' (r.startLine - 1 + 1)
          ((r.endLine - 1 - (r.startLine - 1) - 1) + 1)) =
        sliceContrib lines (r.startLine - 1) (r.startCol - 1)
          (r.endLine - 1) (r.endCol - 1) (r.startLine - 1) ++
          sliceLoop lines (r.startLine - 1) (r.startCol - 1)
            (r.endLine - 1) (r.endCol - 1)
            (List.range' (r.startLine - 1 + 1)
              ((r.endLine - 1 - (r.startLine - 1) - 1) + 1)) := rfl
    rw [hN, hrange, hone]
    rw [slice_tail_part lines (r.startLine - 1) (r.startCol - 1)
      (r.endLine - 1) (r.endCol - 1) (by omega)
      (r.endLine - 1 - (r.startLine - 1) - 1) (r.startLine - 1 + 1)
      (by omega) (by omega)]
    have hc1 : sliceContrib lines (r.startLine - 1) (r.startCol - 1)
        (r.endLine - 1) (r.endCol - 1) (r.startLine - 1) =
        specTailFrom (lines.getD (r.startLine - 1) "") r.startCol ++ "\n" := by
      simp only [sliceContrib, specTailFrom]
      rw [if_neg hneS, if_pos trivial, jsSubstringFrom_eq _ _ (by omega)]
    have hc2 : sliceContrib lines (r.startLine - 1) (r.startCol - 1)
        (r.endLine - 1) (r.endCol - 1) (r.endLine - 1) =
        specHeadTo (lines.getD (r.endLine - 1) "") r.endCol := by
      simp only [sliceContrib, specHeadTo]
      rw [if_neg hneE, if_neg (show ¬ r.endLine - 1 = r.startLine - 1 by omega),
        if_pos trivial, jsSubstring_eq _ 0 (r.endCol - 1 + 1) (by omega) (by omega)]
      rw [List.drop_zero]
      have harith : r.endCol - 1 + 1 - 0 = r.endCol := by omega
      rw [harith]
    have hmids : (lines.drop (r.startLine - 1 + 1)).take
        (r.endLine - 1 - (r.startLine - 1) - 1) = specInterior lines r := by
      simp only [specInterior]
      have e1 : r.startLine - 1 + 1 = r.startLine := by omega
      have e2 : r.endLine - 1 - (r.startLine - 1) - 1 =
          r.endLine - 1 - r.startLine := by omega
      rw [e1, e2]
    rw [hc1, hc2, hmids, joinSep_filter_decomp (specInterior lines r)
      (specTailFrom (lines.getD (r.startLine - 1) "") r.startCol)
      (specHeadTo (lines.getD (r.endLine - 1) "") r.endCol)]
    simp only [strAppend_assoc]

/-- C2 (amended): on a readable file and a valid range, the source's
extraction yields the substring described by the spec, except that empty
interior lines are omitted entirely (their line break dropped), and the
entry is kept only when the resulting text is not whitespace-only. -/
theorem c2_extract_amended (c : String) (r : RangeQ)
    (hv : ValidRange (splitLines c) r) :
    extractSelectedContent (some c) [r] =
      some (if jsTrim (amendedSliceRange (splitLines c) r) = "" then []
            else [{ range := r, content := amendedSliceRange (splitLines c) r,
                    lineCount := r.endLine - r.startLine + 1 }]) := by
  have hs := sliceOne_eq_amended (splitLines c) r hv
  obtain ⟨h1, h2, _⟩ := hv
  simp only [extractSelectedContent, List.filterMap_cons, List.filterMap_nil]
  rw [hs]
  have hlc : max (r.endLine - 1) (r.startLine - 1) -
      min (r.endLine - 1) (r.startLine - 1) + 1 = r.endLine - r.startLine + 1 := by
    omega
  rw [hlc]
  by_cases ht : jsTrim (amendedSliceRange (splitLines c) r) = ""
  · rw [if_pos ht, if_pos ht]
  · rw [if_neg ht, if_neg ht]

/-- C2 counterexample: the file `a\n\nb` with the valid multi-line range
`L1:C1-L3:C1`.  The claim as stated demands the full described substring
`a\n\nb` (interior empty line included); the source's slicing skips the
falsy empty line and returns `a\nb`. -/
theorem c2_counterexample :
    ValidRange (splitLines "a\n\nb") ⟨1, 1, 3, 1⟩ ∧
    extractSelectedContent (some "a\n\nb") [⟨1, 1, 3, 1⟩] =
      some [{ range := ⟨1, 1, 3, 1⟩, content := "a\nb", lineCount := 3 }] ∧
    specSliceRange (splitLines "a\n\nb") ⟨1, 1, 3, 1⟩ = "a\n\nb" ∧
    ("a\nb" : String) ≠ "a\n\nb" :=
  ⟨by decide, by decide, by decide, by decide⟩

/-- C2 witness: the amended theorem applied to a concrete two-line range. -/
theorem c2_witness :
    extractSelectedContent (some "hello\nworld") [⟨1, 2, 2, 3⟩] =
      some (if jsTrim (amendedSliceRange (splitLines "hello\nworld")
              ⟨1, 2, 2, 3⟩) = "" then []
            else [{ range := ⟨1, 2, 2, 3⟩,
                    content := amendedSliceRange (splitLines "hello\nworld")
                      ⟨1, 2, 2, 3⟩,
                    lineCount := 2 - 1 + 1 }]) :=
  c2_extract_amended "hello\nworld" ⟨1, 2, 2, 3⟩ (by decide)

end Vctx
